import Mathlib

/-!
Verification development for the gerbmerge panelizer core
(`tilesearch.py`, `placement.py`, `parselayout.py`).

The repository ships `tilesearch.py` but not the `tiling`, `jobs` and
`config` modules it imports.  The search code is therefore embedded
parametrically over a record `TilingOps` of the tiling operations it calls
(`validAddPoints`, `addJob`, `removeInlets`, `area`, `corners`), and a
concrete instance `specOps` over `SpecTiling` is modelled from the spec
(section 4.1) for use as a witness model.  The machine floats of the
Python source enter the embedded code only through addition,
multiplication, comparisons and min/max, so coordinates are modelled by
an arbitrary linear ordered commutative ring `α` (witnesses instantiate
`α := ℤ`).  Python dictionaries are modelled as association lists in
insertion order.
-/

namespace GerbMerge

variable {α : Type} [LinearOrderedCommRing α] {T : Type}

/-- One entry of the job list handed to the search: the 4-tuple
`(Xdim, Ydim, job, rjob)` of `tilesearch.py`, with the opaque job objects
modelled as numeric identifiers. -/
structure JobT (α : Type) where
  Xdim : α
  Ydim : α
  job : ℕ
  rjob : ℕ
deriving DecidableEq

instance [Zero α] : Inhabited (JobT α) := ⟨⟨0, 0, 0, 0⟩⟩

/-- The x/y spacing configuration stored on the `TileSearch` object
(and, for `parselayout.py`, read from `config.Config`). -/
structure SpacingCfg (α : Type) where
  xspacing : α
  yspacing : α
deriving DecidableEq

/-- The operations of the external `tiling` module used by
`tilesearch.py`, over an abstract tiling type `T`.  `clone` is the
identity in this pure embedding and is therefore omitted. -/
structure TilingOps (α T : Type) where
  validAddPoints : T → α → α → List (α × α)
  addJob : T → α × α → α → α → ℕ → T
  removeInlets : T → α → T
  area : T → α
  corners : T → ℕ

/-- The mutable search state of a `TileSearch` object: `bestTiling`,
`bestScore` (with `none` standing for the initial `float("inf")`),
and the `permutations` and `placements` counters. -/
structure SState (α T : Type) where
  bestTiling : Option T
  bestScore : Option α
  permutations : ℕ
  placements : ℕ
deriving DecidableEq

/-- The search state right after `TileSearch.__init__`:
no best tiling, infinite best score, zero counters. -/
def initSState (α T : Type) : SState α T := ⟨none, none, 0, 0⟩

/-- Modelled from the spec: `tiling.minDimension` (the `tiling` module is
not in `src/`): the smallest width or height among the given jobs.  Its
value only feeds `removeInlets`, a pure pruning optimization. -/
def minDimension (jobs : List (JobT α)) : α :=
  match jobs with
  | [] => 0
  | j :: rest => rest.foldl (fun a k => min a (min k.Xdim k.Ydim)) (min j.Xdim j.Ydim)

/-- Comparison `score < self.bestScore` where the stored best score starts
at `float("inf")`, modelled by `none`. -/
def scoreLt (s : α) (best : Option α) : Bool :=
  match best with
  | none => true
  | some b => decide (s < b)

/-- Comparison `score == self.bestScore` against the `none = inf` model. -/
def scoreEq (s : α) (best : Option α) : Bool :=
  match best with
  | none => false
  | some b => decide (s = b)

/-- The base case of `TileSearch.ExhaustiveSearch` (tilesearch.py lines
177-189): score the complete tiling, replace the best (tiling, score) pair
if the score strictly improves, or ties while the new tiling has strictly
fewer corners, and count the permutation when `firstAddPoint` is set.
When `self.bestScore` is a finite number, `self.bestTiling` is set (the
two are only assigned together), so the `corners` comparison against a
missing best tiling - which would raise in Python - is modelled as
`false`. -/
def baseUpdate (ops : TilingOps α T) (t : T) (first : Bool) (st : SState α T) :
    SState α T :=
  let score := ops.area t
  let improved := scoreLt score st.bestScore ||
    (scoreEq score st.bestScore &&
      (match st.bestTiling with
       | some bt => decide (ops.corners t < ops.corners bt)
       | none => false))
  let st1 := if improved then { st with bestTiling := some t, bestScore := some score } else st
  if first then { st1 with permutations := st1.permutations + 1 } else st1

/-- One iteration of the `for job_ix in range(len(Jobs))` loop of
`TileSearch.ExhaustiveSearch` (tilesearch.py lines 194-245).  `recur` is
the recursive call on the remaining jobs; the add-point lists for the
unrotated and (unless the job is square) rotated job are computed, each
non-empty list is folded over with a recursive call per add-point, and an
empty list credits `2 ** len(remaining_jobs)` pruned permutations when
`firstAddPoint` is set. -/
def esStep (sp : SpacingCfg α) (ops : TilingOps α T)
    (recur : List (JobT α) → Option T → Bool → SState α T → SState α T)
    (Jobs : List (JobT α)) (t0 : T) (first : Bool) (st : SState α T) (job_ix : ℕ) :
    SState α T :=
  let j := Jobs.getD job_ix ⟨0, 0, 0, 0⟩
  let remaining := Jobs.take job_ix ++ Jobs.drop (job_ix + 1)
  let addpoints1 := ops.validAddPoints t0 (j.Xdim + sp.xspacing) (j.Ydim + sp.yspacing)
  let addpoints2 :=
    if j.Xdim ≠ j.Ydim then
      ops.validAddPoints t0 (j.Ydim + sp.xspacing) (j.Xdim + sp.yspacing)
    else []
  let st1 :=
    if addpoints1.isEmpty then
      if first then { st with permutations := st.permutations + 2 ^ remaining.length } else st
    else
      addpoints1.foldl
        (fun s pt =>
          recur remaining
            (some (ops.addJob t0 pt (j.Xdim + sp.xspacing) (j.Ydim + sp.yspacing) j.job))
            (first && decide (pt = addpoints1.headD pt)) s)
        st
  let st2 :=
    if addpoints2.isEmpty then
      if first then { st1 with permutations := st1.permutations + 2 ^ remaining.length } else st1
    else
      addpoints2.foldl
        (fun s pt =>
          recur remaining
            (some (ops.addJob t0 pt (j.Ydim + sp.xspacing) (j.Xdim + sp.yspacing) j.rjob))
            (first && decide (pt = addpoints2.headD pt)) s)
        st1
  st2

/-- `TileSearch.ExhaustiveSearch` (tilesearch.py lines 145-254), with the
recursion depth bounded by a fuel argument; the wrapper below passes
`Jobs.length`, which is always sufficient because each recursive call
removes exactly one job.  A `none` tiling returns at once; an empty job
list scores the tiling; otherwise `removeInlets` is applied and the loop
over job indices runs. -/
def esAux (sp : SpacingCfg α) (ops : TilingOps α T) :
    ℕ → List (JobT α) → Option T → Bool → SState α T → SState α T
  | _, _, none, _, st => st
  | _, [], some t, first, st => baseUpdate ops t first st
  | 0, _ :: _, some _, _, st => st
  | f + 1, Jobs@(_ :: _), some t, first, st =>
    let t0 := ops.removeInlets t (minDimension Jobs)
    (List.range Jobs.length).foldl (esStep sp ops (esAux sp ops f) Jobs t0 first) st

/-- `TileSearch.ExhaustiveSearch`: entry point, giving the recursion
enough fuel for the whole job list. -/
def ExhaustiveSearch (sp : SpacingCfg α) (ops : TilingOps α T)
    (Jobs : List (JobT α)) (TSoFar : Option T) (first : Bool) (st : SState α T) :
    SState α T :=
  esAux sp ops Jobs.length Jobs TSoFar first st

/-! ### A concrete tiling, modelled from the spec

The `tiling` module is not part of `src/`; the following model follows
spec section 3 ("Tiling: {panel width W, panel height H, ..., set of
placed rectangles}") and section 4.1. -/

/-- A placed rectangle of a tiling; per the spec its stored width and
height include the trailing spacing, which the callers in
`tilesearch.py` add before calling `validAddPoints`/`addJob`. -/
structure SRect (α : Type) where
  x : α
  y : α
  w : α
  h : α
  job : ℕ
deriving DecidableEq

/-- Modelled from the spec: the occupancy model over a fixed panel
`[0,W] × [0,H]` with a list of placed rectangles. -/
structure SpecTiling (α : Type) where
  W : α
  H : α
  rects : List (SRect α)
deriving DecidableEq

/-- Open-interval overlap test between two placed rectangles. -/
def rectsOverlap (a b : SRect α) : Bool :=
  decide (a.x < b.x + b.w) && decide (b.x < a.x + a.w) &&
  decide (a.y < b.y + b.h) && decide (b.y < a.y + a.h)

/-- Whether a `w × h` rectangle anchored at `p` stays inside the panel
and overlaps no placed rectangle. -/
def rectFits (t : SpecTiling α) (p : α × α) (w h : α) : Bool :=
  decide (0 ≤ p.1) && decide (0 ≤ p.2) &&
  decide (p.1 + w ≤ t.W) && decide (p.2 + h ≤ t.H) &&
  t.rects.all (fun r => ! rectsOverlap ⟨p.1, p.2, w, h, 0⟩ r)

/-- Modelled from the spec (section 4.1): candidate bottom-left anchors -
the panel origin together with, for every placed rectangle, its
bottom-right, top-left and top-right corners (a superset of the spec's
minimum requirement of origin plus top-right corners). -/
def candidatePoints (t : SpecTiling α) : List (α × α) :=
  (0, 0) ::
    t.rects.flatMap (fun r => [(r.x + r.w, r.y), (r.x, r.y + r.h), (r.x + r.w, r.y + r.h)])

/-- Modelled from the spec: `Tiling.validAddPoints(w, h)` - the ordered
candidate anchors at which a `w × h` rectangle fits. -/
def specValidAddPoints (t : SpecTiling α) (w h : α) : List (α × α) :=
  (candidatePoints t).filter (fun p => rectFits t p w h)

/-- Modelled from the spec: `Tiling.addJob(point, w, h, job)` inserts the
rectangle. -/
def specAddJob (t : SpecTiling α) (p : α × α) (w h : α) (job : ℕ) : SpecTiling α :=
  { t with rects := t.rects ++ [⟨p.1, p.2, w, h, job⟩] }

/-- Largest x-extent of the placed rectangles. -/
def specMaxX (t : SpecTiling α) : α :=
  t.rects.foldl (fun a r => max a (r.x + r.w)) 0

/-- Largest y-extent of the placed rectangles. -/
def specMaxY (t : SpecTiling α) : α :=
  t.rects.foldl (fun a r => max a (r.y + r.h)) 0

/-- Modelled from the spec: `Tiling.area()`, taking the "current bounding
box" option the spec allows. -/
def specArea (t : SpecTiling α) : α := specMaxX t * specMaxY t

/-- The four corner points of a placed rectangle. -/
def rectCorners (r : SRect α) : List (α × α) :=
  [(r.x, r.y), (r.x + r.w, r.y), (r.x, r.y + r.h), (r.x + r.w, r.y + r.h)]

/-- Modelled from the spec: `Tiling.corners()`.  The spec leaves the
exact outline-corner-counting rule open (section 9); this model fixes one
consistent rule - the number of distinct rectangle corner points. -/
def specCorners [DecidableEq α] (t : SpecTiling α) : ℕ :=
  ((t.rects.flatMap rectCorners).dedup).length

/-- Modelled from the spec: `Tiling.removeInlets` discards free-region
bookkeeping only; it must not change scores.  This model keeps no such
bookkeeping, so it is the identity. -/
def specRemoveInlets (t : SpecTiling α) (_minDim : α) : SpecTiling α := t

/-- The spec-modelled tiling operations. -/
def specOps : TilingOps α (SpecTiling α) where
  validAddPoints := specValidAddPoints
  addJob := specAddJob
  removeInlets := specRemoveInlets
  area := specArea
  corners := specCorners

/-! ### RandomSearch (tilesearch.py lines 86-142)

The `random.Random` draws are modelled by oracles: `coins i` is the
`r.choice([0,1])` flip of prefix step `i` (`true` = the truthy `1`,
selecting the unrotated orientation), `picks i` chooses among the valid
add-points of step `i` (reduced modulo the list length, so every
possible `r.choice(addpoints)` outcome is covered), and `joborder` is
the `r.sample(range(N), N)` permutation. -/

/-- The single (width, height) dimension pair that a RandomSearch prefix
step queries `validAddPoints` with, as selected by the coin flip
(tilesearch.py lines 110-123): the unrotated job dimensions on `true`,
the rotated ones on `false`, each inflated by the spacing. -/
def randQuery (sp : SpacingCfg α) (c : Bool) (j : JobT α) : α × α :=
  if c then (j.Xdim + sp.xspacing, j.Ydim + sp.yspacing)
  else (j.Ydim + sp.xspacing, j.Xdim + sp.yspacing)

/-- The greedy prefix loop `for ix in joborder[:M]` of
`TileSearch.RandomSearch` (tilesearch.py lines 105-123): look the job up,
apply `removeInlets`, flip the coin, compute the valid add-points of the
chosen orientation only, `break` (modelled by `none`) if there are none,
otherwise commit the job at the chosen add-point and continue. -/
def randLoop (sp : SpacingCfg α) (ops : TilingOps α T) (jobs : List (JobT α))
    (coins : ℕ → Bool) (picks : ℕ → ℕ) (minInlet : α) :
    List ℕ → ℕ → T → Option T
  | [], _, t => some t
  | ix :: rest, i, t =>
    let j := jobs.getD ix ⟨0, 0, 0, 0⟩
    let t1 := ops.removeInlets t minInlet
    if coins i then
      let addpoints := ops.validAddPoints t1 (j.Xdim + sp.xspacing) (j.Ydim + sp.yspacing)
      if addpoints.isEmpty then none
      else
        randLoop sp ops jobs coins picks minInlet rest (i + 1)
          (ops.addJob t1 (addpoints.getD (picks i % addpoints.length) (0, 0))
            (j.Xdim + sp.xspacing) (j.Ydim + sp.yspacing) j.job)
    else
      let addpoints := ops.validAddPoints t1 (j.Ydim + sp.xspacing) (j.Xdim + sp.yspacing)
      if addpoints.isEmpty then none
      else
        randLoop sp ops jobs coins picks minInlet rest (i + 1)
          (ops.addJob t1 (addpoints.getD (picks i % addpoints.length) (0, 0))
            (j.Ydim + sp.xspacing) (j.Xdim + sp.yspacing) j.rjob)

/-- One trial of the `while 1` loop of `TileSearch.RandomSearch`
(tilesearch.py lines 100-133): `M = max(N - K, 0)` jobs of the drawn
permutation are placed greedily; a `break` skips the `for`-`else` block,
so only `self.placements` is incremented; otherwise the remaining
`joborder[M:]` jobs are collected and, when there are any, handed to
`ExhaustiveSearch` with `firstAddPoint = True`. -/
def randTrial (sp : SpacingCfg α) (ops : TilingOps α T) (jobs : List (JobT α)) (K : ℕ)
    (tbase : T) (coins : ℕ → Bool) (picks : ℕ → ℕ) (joborder : List ℕ)
    (st : SState α T) : SState α T :=
  let N := jobs.length
  let M := max (N - K) 0
  match randLoop sp ops jobs coins picks (minDimension jobs) (joborder.take M) 0 tbase with
  | none => { st with placements := st.placements + 1 }
  | some tEnd =>
    let st1 :=
      if N - M ≠ 0 then
        ExhaustiveSearch sp ops
          ((joborder.drop M).foldl (fun acc ix => acc ++ [jobs.getD ix ⟨0, 0, 0, 0⟩]) [])
          (some tEnd) true st
      else st
    { st1 with placements := st1.placements + 1 }

/-- The trial of spec section 4.3, written the way the claim narrates it:
walk the first `max(N - K, 0)` jobs of the permutation, place each
greedily at the oracle-chosen add-point of the coin-chosen orientation,
abandon the trial (no score update) when that orientation has no valid
add-points, and hand the last jobs of the permutation to
`ExhaustiveSearch` to finish the trial. -/
def greedyPlace (sp : SpacingCfg α) (ops : TilingOps α T)
    (coins : ℕ → Bool) (picks : ℕ → ℕ) (minInlet : α) :
    List (JobT α) → ℕ → T → Option T
  | [], _, t => some t
  | j :: rest, i, t =>
    let t1 := ops.removeInlets t minInlet
    let q := randQuery sp (coins i) j
    let addpoints := ops.validAddPoints t1 q.1 q.2
    if addpoints.isEmpty then none
    else
      greedyPlace sp ops coins picks minInlet rest (i + 1)
        (ops.addJob t1 (addpoints.getD (picks i % addpoints.length) (0, 0)) q.1 q.2
          (if coins i then j.job else j.rjob))

/-- The claim-side description of one RandomSearch trial. -/
def randTrialClaim (sp : SpacingCfg α) (ops : TilingOps α T) (jobs : List (JobT α)) (K : ℕ)
    (tbase : T) (coins : ℕ → Bool) (picks : ℕ → ℕ) (joborder : List ℕ)
    (st : SState α T) : SState α T :=
  let N := jobs.length
  let M := max (N - K) 0
  let permJobs := joborder.map (fun ix => jobs.getD ix ⟨0, 0, 0, 0⟩)
  match greedyPlace sp ops coins picks (minDimension jobs) (permJobs.take M) 0 tbase with
  | none => { st with placements := st.placements + 1 }
  | some tEnd =>
    let tail := permJobs.drop M
    let st1 := if tail.isEmpty then st else ExhaustiveSearch sp ops tail (some tEnd) true st
    { st1 with placements := st1.placements + 1 }

/-! ### tile_search1 / tile_search2 (tilesearch.py lines 256-310) -/

/-- The only exception the search loops raise on their own: the
`KeyboardInterrupt` of the time-gated timeout check (tilesearch.py lines
140-142 and 252-254), which also stands for an external Ctrl-C. -/
inductive PExc where
  | keyboardInterrupt
deriving DecidableEq

/-- The first `n` iterations of the `while 1` trial loop of
`RandomSearch`; `os i` is the oracle triple (coins, picks, joborder) of
trial `i`. -/
def runTrials (sp : SpacingCfg α) (ops : TilingOps α T) (jobs : List (JobT α)) (K : ℕ)
    (tbase : T) (os : ℕ → (ℕ → Bool) × (ℕ → ℕ) × List ℕ) (n : ℕ) (st : SState α T) :
    SState α T :=
  (List.range n).foldl
    (fun s i => randTrial sp ops jobs K tbase (os i).1 (os i).2.1 (os i).2.2 s) st

/-- `TileSearch.RandomSearch` as observed by its caller: the `while 1`
loop never returns normally, so the call always ends in a
`KeyboardInterrupt` - an external Ctrl-C, or the check at lines 140-142
raising once the positive `SearchTimeout` has elapsed.  `n` abstracts the
wall clock: it is the number of trials completed when the interrupt
fires. -/
def RandomSearchModel (sp : SpacingCfg α) (ops : TilingOps α T) (jobs : List (JobT α))
    (K : ℕ) (tbase : T) (os : ℕ → (ℕ → Bool) × (ℕ → ℕ) × List ℕ) (n : ℕ)
    (st : SState α T) : PExc × SState α T :=
  (PExc.keyboardInterrupt, runTrials sp ops jobs K tbase os n st)

/-- `tile_search2` (tilesearch.py lines 256-275): construct the searcher,
run `RandomSearch` inside `try/except KeyboardInterrupt`, and return
`x.bestTiling`; the interrupt is caught, so the caller always receives a
value. -/
def tile_search2M (sp : SpacingCfg α) (ops : TilingOps α T) (jobs : List (JobT α)) (K : ℕ)
    (tbase : T) (os : ℕ → (ℕ → Bool) × (ℕ → ℕ) × List ℕ) (n : ℕ) :
    Except PExc (Option T) :=
  match RandomSearchModel sp ops jobs K tbase os n (initSState α T) with
  | (PExc.keyboardInterrupt, stf) => Except.ok stf.bestTiling

/-- How the `try` block of `tile_search1` ended: the exhaustive search
either returned, or a `KeyboardInterrupt` surfaced while the searcher
object held the intermediate state carried by the constructor. -/
inductive ESOutcome (α T : Type) where
  | completed
  | interrupted (st : SState α T)

/-- The searcher state when the `try` block of `tile_search1` ends. -/
def tsFinalState (sp : SpacingCfg α) (ops : TilingOps α T) (Jobs : List (JobT α))
    (tbase : T) : ESOutcome α T → SState α T
  | ESOutcome.completed => ExhaustiveSearch sp ops Jobs (some tbase) true (initSState α T)
  | ESOutcome.interrupted st2 => st2

/-- `tile_search1` (tilesearch.py lines 277-310): run `ExhaustiveSearch`
on a blank tiling inside `try/except KeyboardInterrupt` and return
`x.bestTiling` whether or not the search was interrupted. -/
def tile_search1M (sp : SpacingCfg α) (ops : TilingOps α T) (Jobs : List (JobT α))
    (tbase : T) (outcome : ESOutcome α T) : Except PExc (Option T) :=
  Except.ok ((tsFinalState sp ops Jobs tbase outcome).bestTiling)

/-! ### Theorems -/

/-- Shared instantiations for concrete witnesses over `α := ℤ`. -/
def spZ : SpacingCfg ℤ := ⟨0, 0⟩

/-- The spec-modelled operations at `α := ℤ`. -/
def opsZ : TilingOps ℤ (SpecTiling ℤ) := specOps

/-- The freshly initialized search state at `α := ℤ`. -/
def initZ : SState ℤ (SpecTiling ℤ) := initSState ℤ (SpecTiling ℤ)

/-- Length of the `remaining_jobs` sub-list built by the exhaustive
search loop. -/
theorem remaining_length {β : Type} (Jobs : List β) (i : ℕ) (h : i < Jobs.length) :
    (Jobs.take i ++ Jobs.drop (i + 1)).length = Jobs.length - 1 := by
  simp only [List.length_append, List.length_take, List.length_drop]
  omega

/-- The claim's acceptance condition for a completed tiling, read against
the `none = inf` initial best score: strictly smaller area, or equal area
with strictly fewer corners than the stored best tiling. -/
def improvesBestB (ops : TilingOps α T) (t : T) (st : SState α T) : Bool :=
  match st.bestScore, st.bestTiling with
  | none, _ => true
  | some b, some bt =>
      decide (ops.area t < b) ||
        (decide (ops.area t = b) && decide (ops.corners t < ops.corners bt))
  | some b, none => decide (ops.area t < b)

/-- The Boolean condition evaluated by the base case of the search equals
the claim's acceptance condition. -/
theorem baseUpdate_improved (ops : TilingOps α T) (t : T) (st : SState α T) :
    (scoreLt (ops.area t) st.bestScore ||
      (scoreEq (ops.area t) st.bestScore &&
        (match st.bestTiling with
         | some bt => decide (ops.corners t < ops.corners bt)
         | none => false))) = improvesBestB ops t st := by
  rcases hs : st.bestScore with _ | b <;> rcases ht : st.bestTiling with _ | bt <;>
    simp [scoreLt, scoreEq, improvesBestB, hs, ht]

/-- `baseUpdate` replaces the best pair exactly when the acceptance
condition holds, and leaves it alone otherwise. -/
theorem baseUpdate_pair (ops : TilingOps α T) (t : T) (first : Bool) (st : SState α T) :
    (baseUpdate ops t first st).bestTiling =
      (if improvesBestB ops t st then some t else st.bestTiling) ∧
    (baseUpdate ops t first st).bestScore =
      (if improvesBestB ops t st then some (ops.area t) else st.bestScore) := by
  unfold baseUpdate
  simp only [baseUpdate_improved]
  cases h : improvesBestB ops t st <;> cases first <;> simp [h]

/-- On an empty job list and a non-null tiling, `ExhaustiveSearch` is the
base-case update. -/
theorem exhaustiveSearch_nil (sp : SpacingCfg α) (ops : TilingOps α T) (t : T)
    (first : Bool) (st : SState α T) :
    ExhaustiveSearch sp ops [] (some t) first st = baseUpdate ops t first st := rfl

/-- C1: for every call to `ExhaustiveSearch` with an empty job list and a
non-null tiling `TSoFar`, the `(bestTiling, bestScore)` pair is updated to
`(TSoFar, TSoFar.area())` exactly when the area strictly improves the
current best score, or ties it while `TSoFar` has strictly fewer corners
than the best tiling (`improvesBestB`); on an exact tie in both area and
corners the earlier-found best is retained unchanged. -/
theorem exhaustive_base_case_updates_best (sp : SpacingCfg α) (ops : TilingOps α T)
    (t : T) (first : Bool) (st : SState α T) :
    (improvesBestB ops t st = true →
      (ExhaustiveSearch sp ops [] (some t) first st).bestTiling = some t ∧
      (ExhaustiveSearch sp ops [] (some t) first st).bestScore = some (ops.area t)) ∧
    (improvesBestB ops t st = false →
      (ExhaustiveSearch sp ops [] (some t) first st).bestTiling = st.bestTiling ∧
      (ExhaustiveSearch sp ops [] (some t) first st).bestScore = st.bestScore) ∧
    (∀ b bt, st.bestScore = some b → st.bestTiling = some bt → ops.area t = b →
      ops.corners t = ops.corners bt →
      (ExhaustiveSearch sp ops [] (some t) first st).bestTiling = st.bestTiling ∧
      (ExhaustiveSearch sp ops [] (some t) first st).bestScore = st.bestScore) := by
  obtain ⟨h1, h2⟩ := baseUpdate_pair ops t first st
  rw [exhaustiveSearch_nil]
  refine ⟨fun h => ?_, fun h => ?_, fun b bt hsb hst ha hc => ?_⟩
  · rw [h1, h2, h]; simp
  · rw [h1, h2, h]; simp
  · have hfalse : improvesBestB ops t st = false := by
      simp [improvesBestB, hsb, hst, ha, hc]
    rw [h1, h2, hfalse]; simp

/-- Witness tiling for the C1 base-case theorem. -/
def w1T : SpecTiling ℤ := ⟨2, 2, [⟨0, 0, 1, 1, 5⟩]⟩

/-- Witness for C1: a concrete call on a fresh state accepts the tiling. -/
theorem exhaustive_base_case_updates_best_witness :
    improvesBestB opsZ w1T initZ = true ∧
    ((ExhaustiveSearch spZ opsZ [] (some w1T) true initZ).bestTiling = some w1T ∧
     (ExhaustiveSearch spZ opsZ [] (some w1T) true initZ).bestScore =
       some (opsZ.area w1T)) :=
  ⟨by decide, (exhaustive_base_case_updates_best spZ opsZ w1T true initZ).1 (by decide)⟩

/-! C2: the claim says that when some remaining job has no valid
add-points in either orientation the whole branch rooted at the partial
tiling is pruned - nothing further explored from that state.  The code
(tilesearch.py lines 225-229 and 241-245) only credits the permutation
counter and lets the `for job_ix` loop continue with the other jobs.  In
the scenario below the first job is blocked in both orientations, yet the
search goes on to place the second job, after which the first job gains a
valid add-point (a new rectangle corner) and a complete 4-rectangle
tiling is recorded as the best - impossible if the branch had been
pruned. -/

/-- C2 counterexample panel: 12 x 4, with rectangles at (0,0) 2x2 and
(2,3) 1x1 already placed. -/
def cex2T0 : SpecTiling ℤ := ⟨12, 4, [⟨0, 0, 2, 2, 100⟩, ⟨2, 3, 1, 1, 101⟩]⟩

/-- C2 counterexample job A: 6 x 4, blocked in both orientations. -/
def cex2JobA : JobT ℤ := ⟨6, 4, 1, 2⟩

/-- C2 counterexample job B: 1 x 2, placeable. -/
def cex2JobB : JobT ℤ := ⟨1, 2, 3, 4⟩

/-- C2 counterexample: with zero spacing, job A's unrotated (6 x 4) and
rotated (4 x 6) orientations both have no valid add-points on the partial
tiling handed to the recursive case, yet `ExhaustiveSearch` still
explores placements of job B from that very state and ends with a
complete best tiling of 4 rectangles - the branch is not pruned. -/
theorem exhaustive_no_immediate_branch_prune :
    specValidAddPoints (specRemoveInlets cex2T0 (minDimension [cex2JobA, cex2JobB]))
        (6 + 0) (4 + 0) = [] ∧
    specValidAddPoints (specRemoveInlets cex2T0 (minDimension [cex2JobA, cex2JobB]))
        (4 + 0) (6 + 0) = [] ∧
    (ExhaustiveSearch spZ opsZ [cex2JobA, cex2JobB] (some cex2T0) true initZ).bestTiling
        ≠ none ∧
    (ExhaustiveSearch spZ opsZ [cex2JobA, cex2JobB] (some cex2T0) true
        initZ).bestTiling.map (fun t => t.rects.length) = some 4 :=
  ⟨by decide, by decide, by decide, by decide⟩

/-- C2 amended: when a job's two orientations both yield no valid
add-points, the per-job step of the exhaustive loop explores no placement
of that job - its result does not depend on the recursive call at all -
and only credits `2 ^ len(remaining_jobs)` permutations per empty
orientation when `firstAddPoint` is set; the loop then continues with the
other remaining jobs from the same partial tiling. -/
theorem esStep_skips_blocked_job (sp : SpacingCfg α) (ops : TilingOps α T)
    (recur : List (JobT α) → Option T → Bool → SState α T → SState α T)
    (Jobs : List (JobT α)) (t0 : T) (first : Bool) (st : SState α T) (job_ix : ℕ)
    (hj : job_ix < Jobs.length)
    (h1 : ops.validAddPoints t0 ((Jobs.getD job_ix ⟨0, 0, 0, 0⟩).Xdim + sp.xspacing)
        ((Jobs.getD job_ix ⟨0, 0, 0, 0⟩).Ydim + sp.yspacing) = [])
    (h2 : ops.validAddPoints t0 ((Jobs.getD job_ix ⟨0, 0, 0, 0⟩).Ydim + sp.xspacing)
        ((Jobs.getD job_ix ⟨0, 0, 0, 0⟩).Xdim + sp.yspacing) = []) :
    esStep sp ops recur Jobs t0 first st job_ix =
      if first then
        { st with permutations :=
            st.permutations + 2 ^ (Jobs.length - 1) + 2 ^ (Jobs.length - 1) }
      else st := by
  unfold esStep
  simp only [h1, h2, remaining_length Jobs job_ix hj]
  cases first <;> split <;> simp_all

/-- Witness for the amended C2 statement, on the counterexample data:
the step for the blocked job leaves the state untouched except for the
pruned-permutations credit, for an arbitrary recursive continuation. -/
theorem esStep_skips_blocked_job_witness :
    (0 : ℕ) < ([cex2JobA, cex2JobB] : List (JobT ℤ)).length ∧
    opsZ.validAddPoints cex2T0
      (([cex2JobA, cex2JobB].getD 0 ⟨0, 0, 0, 0⟩).Xdim + spZ.xspacing)
      (([cex2JobA, cex2JobB].getD 0 ⟨0, 0, 0, 0⟩).Ydim + spZ.yspacing) = [] ∧
    opsZ.validAddPoints cex2T0
      (([cex2JobA, cex2JobB].getD 0 ⟨0, 0, 0, 0⟩).Ydim + spZ.xspacing)
      (([cex2JobA, cex2JobB].getD 0 ⟨0, 0, 0, 0⟩).Xdim + spZ.yspacing) = [] ∧
    esStep spZ opsZ (fun _ _ _ s => s) [cex2JobA, cex2JobB] cex2T0 true initZ 0 =
      if true then
        { initZ with permutations :=
            initZ.permutations + 2 ^ (([cex2JobA, cex2JobB] : List (JobT ℤ)).length - 1) +
              2 ^ (([cex2JobA, cex2JobB] : List (JobT ℤ)).length - 1) }
      else initZ :=
  ⟨by decide, by decide, by decide,
    esStep_skips_blocked_job spZ opsZ (fun _ _ _ s => s) [cex2JobA, cex2JobB] cex2T0 true
      initZ 0 (by decide) (by decide) (by decide)⟩

/-- The per-job step of the exhaustive loop with the rotated orientation
never searched: identical to `esStep` except that no rotated add-point
list is ever computed, the rotated side being handled directly as an
empty list (so, under `firstAddPoint`, as a pruned-permutations
credit). -/
def esStepUnrotOnly (sp : SpacingCfg α) (ops : TilingOps α T)
    (recur : List (JobT α) → Option T → Bool → SState α T → SState α T)
    (Jobs : List (JobT α)) (t0 : T) (first : Bool) (st : SState α T) (job_ix : ℕ) :
    SState α T :=
  let j := Jobs.getD job_ix ⟨0, 0, 0, 0⟩
  let remaining := Jobs.take job_ix ++ Jobs.drop (job_ix + 1)
  let addpoints1 := ops.validAddPoints t0 (j.Xdim + sp.xspacing) (j.Ydim + sp.yspacing)
  let st1 :=
    if addpoints1.isEmpty then
      if first then { st with permutations := st.permutations + 2 ^ remaining.length } else st
    else
      addpoints1.foldl
        (fun s pt =>
          recur remaining
            (some (ops.addJob t0 pt (j.Xdim + sp.xspacing) (j.Ydim + sp.yspacing) j.job))
            (first && decide (pt = addpoints1.headD pt)) s)
        st
  if first then { st1 with permutations := st1.permutations + 2 ^ remaining.length } else st1

/-- C7: for a square job the search performs no separate rotated
add-point search.  The exhaustive per-job step behaves exactly as the
step that only ever searches the unrotated orientation, and the single
`validAddPoints` query of a RandomSearch prefix step asks for the
unrotated dimensions whichever way the coin lands. -/
theorem square_job_single_orientation (sp : SpacingCfg α) (j : JobT α)
    (hsq : j.Xdim = j.Ydim) :
    (∀ (T : Type) (ops : TilingOps α T)
       (recur : List (JobT α) → Option T → Bool → SState α T → SState α T)
       (Jobs : List (JobT α)) (t0 : T) (first : Bool) (st : SState α T) (job_ix : ℕ),
       Jobs.getD job_ix ⟨0, 0, 0, 0⟩ = j →
       esStep sp ops recur Jobs t0 first st job_ix =
         esStepUnrotOnly sp ops recur Jobs t0 first st job_ix) ∧
    (∀ c : Bool, randQuery sp c j = (j.Xdim + sp.xspacing, j.Ydim + sp.yspacing)) := by
  constructor
  · intro T ops recur Jobs t0 first st job_ix hjob
    unfold esStep esStepUnrotOnly
    simp only [hjob, hsq]
    simp
  · intro c
    cases c <;> simp [randQuery, hsq]

/-- Witness job for C7: a 2 x 2 square. -/
def w7J : JobT ℤ := ⟨2, 2, 9, 10⟩

/-- Witness for C7 at a concrete square job. -/
theorem square_job_single_orientation_witness :
    w7J.Xdim = w7J.Ydim ∧
    esStep spZ opsZ (fun _ _ _ s => s) [w7J] w1T true initZ 0 =
      esStepUnrotOnly spZ opsZ (fun _ _ _ s => s) [w7J] w1T true initZ 0 ∧
    randQuery spZ false w7J = (w7J.Xdim + spZ.xspacing, w7J.Ydim + spZ.yspacing) :=
  ⟨by decide,
    (square_job_single_orientation spZ w7J (by decide)).1 (SpecTiling ℤ) opsZ
      (fun _ _ _ s => s) [w7J] w1T true initZ 0 (by decide),
    (square_job_single_orientation spZ w7J (by decide)).2 false⟩

/-- Building a list by repeated append of singletons is `List.map`. -/
theorem foldl_append_singleton {β γ : Type} (l : List β) (f : β → γ) (acc : List γ) :
    l.foldl (fun a ix => a ++ [f ix]) acc = acc ++ l.map f := by
  induction l generalizing acc with
  | nil => simp
  | cons x xs ih => simp [ih]

/-- The index-driven greedy prefix loop of the source equals the
job-driven greedy placement of the claim, step for step. -/
theorem randLoop_eq_greedyPlace (sp : SpacingCfg α) (ops : TilingOps α T)
    (jobs : List (JobT α)) (coins : ℕ → Bool) (picks : ℕ → ℕ) (minInlet : α)
    (ixs : List ℕ) (i : ℕ) (t : T) :
    randLoop sp ops jobs coins picks minInlet ixs i t =
      greedyPlace sp ops coins picks minInlet
        (ixs.map (fun ix => jobs.getD ix ⟨0, 0, 0, 0⟩)) i t := by
  induction ixs generalizing i t with
  | nil => simp [randLoop, greedyPlace]
  | cons ix rest ih =>
    simp only [randLoop, greedyPlace, List.map_cons]
    cases h : coins i <;> simp [h, randQuery, ih]

/-- C4: one RandomSearch trial is exactly the claim's trial: a permutation
of all job indices is drawn; the first `max(N - K, 0)` jobs of it are
placed greedily and irrevocably (coin-chosen orientation, add-points
computed for that orientation only, trial abandoned with no score update
when they are empty, otherwise an oracle-chosen add-point committed with
no backtracking); and the last jobs of the permutation are handed to
`ExhaustiveSearch` to finish the trial. -/
theorem randTrial_matches_claim (sp : SpacingCfg α) (ops : TilingOps α T)
    (jobs : List (JobT α)) (K : ℕ) (tbase : T) (coins : ℕ → Bool) (picks : ℕ → ℕ)
    (joborder : List ℕ) (st : SState α T)
    (hperm : joborder.Perm (List.range jobs.length)) :
    randTrial sp ops jobs K tbase coins picks joborder st =
      randTrialClaim sp ops jobs K tbase coins picks joborder st := by
  have hlen : joborder.length = jobs.length := by simpa using hperm.length_eq
  unfold randTrial randTrialClaim
  simp only [randLoop_eq_greedyPlace, ← List.map_take]
  rcases hg : greedyPlace sp ops coins picks (minDimension jobs)
      ((joborder.take (max (jobs.length - K) 0)).map
        (fun ix => jobs.getD ix ⟨0, 0, 0, 0⟩)) 0 tbase with _ | tEnd
  · rfl
  · rw [foldl_append_singleton, ← List.map_drop]
    have hcond : (jobs.length - (jobs.length - K) = 0) ↔
        (joborder.length ≤ jobs.length - K) := by omega
    by_cases h : joborder.length ≤ jobs.length - K
    · have h2 : jobs.length - (jobs.length - K) = 0 := hcond.mpr h
      simp [h, h2]
    · have h2 : ¬ (jobs.length - (jobs.length - K) = 0) := fun hh => h (hcond.mp hh)
      simp [h, h2]

/-- Witness jobs for the C4 trial theorem. -/
def w4Jobs : List (JobT ℤ) := [⟨1, 1, 11, 12⟩, ⟨1, 2, 13, 14⟩]

/-- Witness for C4 at a concrete two-job trial with exhaustive tail 1. -/
theorem randTrial_matches_claim_witness :
    ([1, 0] : List ℕ).Perm (List.range w4Jobs.length) ∧
    randTrial spZ opsZ w4Jobs 1 (⟨4, 4, []⟩ : SpecTiling ℤ) (fun _ => true) (fun _ => 0)
        [1, 0] initZ =
      randTrialClaim spZ opsZ w4Jobs 1 (⟨4, 4, []⟩ : SpecTiling ℤ) (fun _ => true)
        (fun _ => 0) [1, 0] initZ :=
  ⟨by decide,
    randTrial_matches_claim spZ opsZ w4Jobs 1 (⟨4, 4, []⟩ : SpecTiling ℤ) (fun _ => true)
      (fun _ => 0) [1, 0] initZ (by decide)⟩

/-- C5: an interrupt or elapsed timeout mid-search is not an error.
`tile_search2` returns the best tiling of the state accumulated by the
trials completed before the `KeyboardInterrupt` fired - `none` when it
fired before any trial completed - and `tile_search1` returns the best
tiling of whatever state the exhaustive search held when it finished or
was interrupted; neither propagates the exception. -/
theorem tile_search_interrupt_returns_best (sp : SpacingCfg α) (ops : TilingOps α T)
    (jobs Jobs1 : List (JobT α)) (K : ℕ) (tbase tbase1 : T)
    (os : ℕ → (ℕ → Bool) × (ℕ → ℕ) × List ℕ) :
    (∀ n, tile_search2M sp ops jobs K tbase os n =
      Except.ok ((runTrials sp ops jobs K tbase os n (initSState α T)).bestTiling)) ∧
    tile_search2M sp ops jobs K tbase os 0 = Except.ok none ∧
    (∀ outcome, tile_search1M sp ops Jobs1 tbase1 outcome =
      Except.ok ((tsFinalState sp ops Jobs1 tbase1 outcome).bestTiling)) := by
  exact ⟨fun n => rfl, rfl, fun outcome => rfl⟩

/-! ### placement.py and parselayout.findJob

Coordinates are only carried, never computed with, so this part is
generic over a type `β` with decidable equality.  Python strings are
Lean strings; `str.split` and `str.lower` are implemented below on the
character lists so that every definition evaluates in the kernel. -/

variable {β : Type}

/-- Character-list test that `pat` occurs at the head of `s`. -/
def startsWithChars : List Char → List Char → Bool
  | [], _ => true
  | _ :: _, [] => false
  | a :: as, b :: bs => a == b && startsWithChars as bs

/-- Python's `str.split(sep)` on character lists, fuelled by the input
length (each step consumes at least one character, so the fuel passed by
`pySplit` is always sufficient). -/
def splitCharsF (sep : List Char) : ℕ → List Char → List Char → List (List Char)
  | _, [], acc => [acc.reverse]
  | 0, s, acc => [acc.reverse ++ s]
  | f + 1, s@(c :: rest), acc =>
    if startsWithChars sep s && decide (0 < sep.length) then
      acc.reverse :: splitCharsF sep f (s.drop sep.length) []
    else
      splitCharsF sep f rest (c :: acc)

/-- Python's `str.split(sep)` for a non-empty separator: split on every
non-overlapping occurrence, left to right. -/
def pySplit (s sep : String) : List String :=
  (splitCharsF sep.data s.data.length s.data []).map String.mk

/-- Python's `str.lower()` (job names are ASCII). -/
def lowerStr (s : String) : String := String.mk (s.data.map Char.toLower)

/-- A Python value that is either an `int` or a `str`, as passed for the
`rotated` argument of `findJob`: `element.get('rotate', 0)` yields the
attribute string when the attribute is present and the `int` default `0`
otherwise. -/
inductive PyVal where
  | int (n : ℤ)
  | str (s : String)
deriving DecidableEq

/-- Python truthiness of such a value. -/
def pvTruthy : PyVal → Bool
  | PyVal.int n => decide (n ≠ 0)
  | PyVal.str s => decide (s ≠ "")

/-- Errors surfaced by the placement-file reader: a `NameError` from an
undefined local name, or a descriptive `RuntimeError`. -/
inductive PErr where
  | nameError
  | runtimeError (msg : String)
deriving DecidableEq

/-- Modelled from the spec: a catalog job of the external `jobs` module.
For placement purposes only its identity (name) is relevant; rotated
variants are distinct catalog entries whose names carry a
`*rotated<degrees>` suffix, which is what `Placement.write` splits on. -/
structure PJob where
  name : String
deriving DecidableEq

/-- Modelled from the spec: `jobs.JobLayout` - a catalog job with its
panel position; `jobs.JobLayout(job)` starts unpositioned (`None`), and
`setPosition` fills the coordinates in. -/
structure PJobLayout (β : Type) where
  job : PJob
  x : Option β
  y : Option β
deriving DecidableEq

/-- `JobLayout.setPosition(x, y)`. -/
def PJobLayout.setPosition (jl : PJobLayout β) (x y : β) : PJobLayout β :=
  { jl with x := some x, y := some y }

/-- Modelled from the spec: `jobs.rotateJob` builds the rotated variant
of a catalog job, its name gaining the `*rotated<degrees>` suffix. -/
def rotateJob (j : PJob) (rotated : PyVal) : PJob :=
  ⟨j.name ++ "*rotated" ++ (match rotated with | PyVal.int n => toString n | PyVal.str s => s)⟩

/-- `parselayout.findJob` (parselayout.py lines 145-184), threading the
catalog because a created rotated variant is stored back into it.  The
`rotated == 90/180/270` guards compare with Python `==`, which is plain
`False` between a string and an int.  The first lookup loop returns the
first case-insensitive match of the full name.  Otherwise, when
`rotated` is truthy, a second loop scans for the base name and keeps the
LAST match (it has no `break` or `return`); if it matches nothing the
local variable `job` stays unbound and line 181 (`jobs.rotateJob(job,
rotated)`) raises a `NameError`.  When `rotated` is falsy, the
descriptive `RuntimeError` of line 178 is raised. -/
def findJob (jobname : String) (rotated : PyVal) (Jobs : List (String × PJob)) :
    Except PErr (PJobLayout β × List (String × PJob)) :=
  let fullname :=
    if rotated == PyVal.int 90 then jobname ++ "*rotated90"
    else if rotated == PyVal.int 180 then jobname ++ "*rotated180"
    else if rotated == PyVal.int 270 then jobname ++ "*rotated270"
    else jobname
  match Jobs.find? (fun kv => lowerStr kv.1 == lowerStr fullname) with
  | some kv => Except.ok (⟨kv.2, none, none⟩, Jobs)
  | none =>
    if pvTruthy rotated then
      match Jobs.reverse.find? (fun kv => lowerStr kv.1 == lowerStr jobname) with
      | some kv =>
        let job := rotateJob kv.2 rotated
        Except.ok (⟨job, none, none⟩, Jobs ++ [(fullname, job)])
      | none => Except.error PErr.nameError
    else Except.error (PErr.runtimeError ("Job name " ++ jobname ++ " not found"))

/-- An XML attribute value: `.num` for numeric values (`str(float)` is
written out and `float(...)` reads the same number back), `.str` for
attribute text that does not parse as a float. -/
inductive AVal (β : Type) where
  | num (v : β)
  | str (s : String)
deriving DecidableEq

/-- One `<board>` element of a placement file: the `name` attribute, the
optional `rotate` attribute, and the `x`/`y` attributes (an absent
coordinate attribute defaults to `.num 0` per `element.get('x', 0.0)`). -/
structure BoardRec (β : Type) where
  name : String
  rotate : Option String
  x : AVal β
  y : AVal β
deriving DecidableEq

/-- Python's `float(value)`: succeeds on numbers, raises `ValueError`
(here `none`) on non-numeric text. -/
def pyFloat : AVal β → Option β
  | AVal.num v => some v
  | AVal.str _ => none

/-- `Placement.write` (placement.py lines 55-70): split each job name on
`*rotated`; the first piece becomes the `name` attribute and, when the
split has exactly two pieces, the second piece becomes the `rotate`
attribute; the positions are written as attributes (an unset position
would be written as the text `None`). -/
def writeRecs (pjobs : List (PJobLayout β)) : List (BoardRec β) :=
  pjobs.map (fun jl =>
    let splitname := pySplit jl.job.name "*rotated"
    { name := splitname.headD "",
      rotate := if splitname.length == 2 then some (splitname.getD 1 "") else none,
      x := match jl.x with | some v => AVal.num v | none => AVal.str "None",
      y := match jl.y with | some v => AVal.num v | none => AVal.str "None" })

/-- Processing of one `<board>` element by `Placement.addFromFile`
(placement.py lines 83-96).  `element.get('rotate', 0)` yields the
attribute STRING when present, else the int `0`.  The coordinate parse
is wrapped in `try ... except e:` - no name `e` is in scope, so when
`float(...)` raises a `ValueError`, evaluating the `except` clause
raises a `NameError` instead of producing the intended descriptive
`RuntimeError`. -/
def addBoardRec (Jobs : List (String × PJob)) (r : BoardRec β) :
    Except PErr (PJobLayout β × List (String × PJob)) :=
  let rotate := match r.rotate with | some s => PyVal.str s | none => PyVal.int 0
  match pyFloat r.x, pyFloat r.y with
  | some x, some y =>
    match findJob r.name rotate Jobs with
    | Except.error e => Except.error e
    | Except.ok (addjob, Jobs2) => Except.ok (addjob.setPosition x y, Jobs2)
  | _, _ => Except.error PErr.nameError

/-- The record loop of `Placement.addFromFile`, threading the catalog
(a created rotated variant is visible to the following records). -/
def addRecs (Jobs : List (String × PJob)) :
    List (BoardRec β) → Except PErr (List (PJobLayout β) × List (String × PJob))
  | [] => Except.ok ([], Jobs)
  | r :: rest =>
    match addBoardRec Jobs r with
    | Except.error e => Except.error e
    | Except.ok (jl, Jobs2) =>
      match addRecs Jobs2 rest with
      | Except.error e => Except.error e
      | Except.ok (jls, Jobs3) => Except.ok (jl :: jls, Jobs3)

/-- `Placement.addFromFile` (placement.py lines 72-96): the XML
write/parse pair is the identity on the `<board>` records, each record is
resolved against the catalog, positioned, and appended to `self.jobs`. -/
def addFromFile (recs : List (BoardRec β)) (Jobs : List (String × PJob)) :
    Except PErr (List (PJobLayout β)) :=
  (addRecs Jobs recs).map (fun p => p.1)

/-- Whether a job name carries the `*rotated<degrees>` tag that
`Placement.write` turns into a `rotate` attribute. -/
def isRotatedName (name : String) : Bool := (pySplit name "*rotated").length == 2

/-- The (job identity, x, y, rotated) record of a placed job. -/
def recordsOf (jls : List (PJobLayout β)) : List (PJob × Option β × Option β × Bool) :=
  jls.map (fun jl => (jl.job, jl.x, jl.y, isRotatedName jl.job.name))

instance {ε γ : Type} [DecidableEq ε] [DecidableEq γ] : DecidableEq (Except ε γ) :=
  fun a b =>
    match a, b with
    | Except.ok x, Except.ok y =>
      if h : x = y then Decidable.isTrue (by rw [h])
      else Decidable.isFalse (fun hh => h (Except.ok.inj hh))
    | Except.error e, Except.error f =>
      if h : e = f then Decidable.isTrue (by rw [h])
      else Decidable.isFalse (fun hh => h (Except.error.inj hh))
    | Except.ok _, Except.error _ => Decidable.isFalse (fun hh => Except.noConfusion hh)
    | Except.error _, Except.ok _ => Decidable.isFalse (fun hh => Except.noConfusion hh)

/-- C3 counterexample catalog: the base job and its rotated variant. -/
def cex3Cat : List (String × PJob) :=
  [("board", ⟨"board"⟩), ("board*rotated90", ⟨"board*rotated90"⟩)]

/-- C3 counterexample placement: one rotated job at (1, 2). -/
def cex3Pl : List (PJobLayout ℤ) := [⟨⟨"board*rotated90"⟩, some 1, some 2⟩]

/-- C3 counterexample: writing a placement of the rotated job emits
`name="board" rotate="90"`, but `addFromFile` passes the STRING "90" to
`findJob`, whose `rotated == 90` int comparisons all fail, so the lookup
uses the bare name and returns the unrotated catalog job: the re-read
record set differs from the original in job identity and rotated flag. -/
theorem placement_roundtrip_drops_rotation :
    writeRecs cex3Pl =
      [{ name := "board", rotate := some "90", x := AVal.num 1, y := AVal.num 2 }] ∧
    addFromFile (writeRecs cex3Pl) cex3Cat =
      Except.ok [⟨⟨"board"⟩, some 1, some 2⟩] ∧
    recordsOf [(⟨⟨"board"⟩, some 1, some 2⟩ : PJobLayout ℤ)] ≠ recordsOf cex3Pl :=
  ⟨by decide, by decide, by decide⟩

/-- Re-reading one record written for an unrotated, catalog-resolved job
reproduces that job layout exactly. -/
theorem addBoardRec_write_one (Jobs : List (String × PJob)) (jl : PJobLayout β)
    (hsplit : pySplit jl.job.name "*rotated" = [jl.job.name])
    (x y : β) (hx : jl.x = some x) (hy : jl.y = some y)
    (hfind : (Jobs.find? (fun kv => lowerStr kv.1 == lowerStr jl.job.name)).map
      (fun kv => kv.2) = some jl.job) :
    addBoardRec Jobs
      { name := (pySplit jl.job.name "*rotated").headD "",
        rotate := if (pySplit jl.job.name "*rotated").length == 2 then
            some ((pySplit jl.job.name "*rotated").getD 1 "") else none,
        x := match jl.x with | some v => AVal.num v | none => AVal.str "None",
        y := match jl.y with | some v => AVal.num v | none => AVal.str "None" } =
      Except.ok (jl, Jobs) := by
  obtain ⟨kv, hkv⟩ :
      ∃ kv, Jobs.find? (fun kv => lowerStr kv.1 == lowerStr jl.job.name) = some kv := by
    cases hf : Jobs.find? (fun kv => lowerStr kv.1 == lowerStr jl.job.name) with
    | none => rw [hf] at hfind; exact absurd hfind (by simp)
    | some kv => exact ⟨kv, rfl⟩
  have hkv2 : kv.2 = jl.job := by rw [hkv] at hfind; simpa using hfind
  have h90 : (PyVal.int 0 == PyVal.int 90) = false := by decide
  have h180 : (PyVal.int 0 == PyVal.int 180) = false := by decide
  have h270 : (PyVal.int 0 == PyVal.int 270) = false := by decide
  have htr : pvTruthy (PyVal.int 0) = false := by decide
  rw [hsplit, hx, hy]
  simp only [addBoardRec, pyFloat]
  simp [findJob, h90, h180, h270, htr, hkv, hkv2, PJobLayout.setPosition]
  cases jl with
  | mk j jx jy => simp_all

/-- The write/read loop round-trips a list of unrotated, catalog-resolved
jobs while leaving the catalog unchanged. -/
theorem addRecs_writeRecs_roundtrip (Jobs : List (String × PJob))
    (pjobs : List (PJobLayout β))
    (h : ∀ jl ∈ pjobs,
      pySplit jl.job.name "*rotated" = [jl.job.name] ∧
      jl.x.isSome = true ∧ jl.y.isSome = true ∧
      (Jobs.find? (fun kv => lowerStr kv.1 == lowerStr jl.job.name)).map
        (fun kv => kv.2) = some jl.job) :
    addRecs Jobs (writeRecs pjobs) = Except.ok (pjobs, Jobs) := by
  induction pjobs with
  | nil => rfl
  | cons jl rest ih =>
    obtain ⟨hsplit, hx, hy, hfind⟩ := h jl (by simp)
    obtain ⟨x, hxv⟩ := Option.isSome_iff_exists.mp hx
    obtain ⟨y, hyv⟩ := Option.isSome_iff_exists.mp hy
    have hone := addBoardRec_write_one Jobs jl hsplit x y hxv hyv hfind
    have hrest : addRecs Jobs (writeRecs rest) = Except.ok (rest, Jobs) :=
      ih (fun j hj => h j (List.mem_cons_of_mem jl hj))
    simp only [writeRecs] at hone hrest ⊢
    simp only [List.map_cons, addRecs, hone, hrest]

/-- C3 amended: for a placement whose jobs all have positions set,
unrotated names (no `*rotated` tag) and resolve case-insensitively in the
catalog to themselves, `Placement.write` followed by
`Placement.addFromFile` against the same catalog reproduces the identical
list of (job identity, x, y, rotated) records without re-running search;
for rotated jobs the `rotate` attribute is re-read as a string, matches
no rotation branch of `findJob`, and the job resolves to the unrotated
catalog entry (see the counterexample). -/
theorem placement_roundtrip_unrotated (Jobs : List (String × PJob))
    (pjobs : List (PJobLayout β))
    (h : ∀ jl ∈ pjobs,
      pySplit jl.job.name "*rotated" = [jl.job.name] ∧
      jl.x.isSome = true ∧ jl.y.isSome = true ∧
      (Jobs.find? (fun kv => lowerStr kv.1 == lowerStr jl.job.name)).map
        (fun kv => kv.2) = some jl.job) :
    addFromFile (writeRecs pjobs) Jobs = Except.ok pjobs ∧
    ∃ out, addFromFile (writeRecs pjobs) Jobs = Except.ok out ∧
      recordsOf out = recordsOf pjobs := by
  have hrt := addRecs_writeRecs_roundtrip Jobs pjobs h
  have hmain : addFromFile (writeRecs pjobs) Jobs = Except.ok pjobs := by
    unfold addFromFile
    rw [hrt]
    rfl
  exact ⟨hmain, pjobs, hmain, rfl⟩

/-- Witness catalog for the amended C3 theorem. -/
def w3Cat : List (String × PJob) := [("Alpha", ⟨"Alpha"⟩), ("Beta", ⟨"Beta"⟩)]

/-- Witness placement for the amended C3 theorem. -/
def w3Pl : List (PJobLayout ℤ) := [⟨⟨"Beta"⟩, some 3, some 4⟩, ⟨⟨"Alpha"⟩, some 0, some 7⟩]

/-- Witness for the amended C3 theorem at a concrete placement. -/
theorem placement_roundtrip_unrotated_witness :
    (∀ jl ∈ w3Pl,
      pySplit jl.job.name "*rotated" = [jl.job.name] ∧
      jl.x.isSome = true ∧ jl.y.isSome = true ∧
      (w3Cat.find? (fun kv => lowerStr kv.1 == lowerStr jl.job.name)).map
        (fun kv => kv.2) = some jl.job) ∧
    addFromFile (writeRecs w3Pl) w3Cat = Except.ok w3Pl :=
  ⟨by decide, (placement_roundtrip_unrotated w3Cat w3Pl (by decide)).1⟩

/-- C8 failing record: a `<board>` element whose x attribute is the
non-numeric text "abc". -/
def cex8Rec : BoardRec ℤ :=
  { name := "B1", rotate := none, x := AVal.str "abc", y := AVal.num 0 }

/-- C8 catalog: the record's job name does resolve, so only the
coordinate is at fault. -/
def cex8Cat : List (String × PJob) := [("B1", ⟨"B1"⟩)]

/-- C8: at the failing input - a `<board>` record whose x attribute is
the non-numeric text "abc" - `addFromFile` raises the `NameError` caused
by the undefined name in `except e:` (placement.py line 91), not the
intended descriptive `RuntimeError` naming the offending record. -/
theorem addFromFile_nonnumeric_coordinate_nameError :
    addFromFile [cex8Rec] cex8Cat = Except.error PErr.nameError := by decide

/-- `List.find?` only depends on the pointwise behaviour of its
predicate. -/
theorem find?_congr {γ : Type} (l : List γ) (p q : γ → Bool) (h : ∀ a, p a = q a) :
    l.find? p = l.find? q := by
  induction l with
  | nil => rfl
  | cons a as ih =>
    simp only [List.find?]
    rw [h a]
    cases q a <;> simp [ih]

/-- C10: `findJob` matches job names case-insensitively - whenever a
lookup of `n1` (no rotation requested) succeeds, the lookup of any name
`n2` with the same lowercase form returns the identical `JobLayout`,
which wraps a job stored in the catalog. -/
theorem findJob_case_insensitive (Jobs : List (String × PJob)) (n1 n2 : String)
    (h : lowerStr n1 = lowerStr n2) (jl : PJobLayout β) (cat2 : List (String × PJob))
    (hfind : findJob n1 (PyVal.int 0) Jobs = Except.ok (jl, cat2)) :
    findJob n2 (PyVal.int 0) Jobs = Except.ok (jl, cat2) ∧
    ∃ k, (k, jl.job) ∈ Jobs := by
  have h90 : (PyVal.int 0 == PyVal.int 90) = false := by decide
  have h180 : (PyVal.int 0 == PyVal.int 180) = false := by decide
  have h270 : (PyVal.int 0 == PyVal.int 270) = false := by decide
  have htr : pvTruthy (PyVal.int 0) = false := by decide
  have hcongr : Jobs.find? (fun kv => lowerStr kv.1 == lowerStr n1) =
      Jobs.find? (fun kv => lowerStr kv.1 == lowerStr n2) :=
    find?_congr Jobs _ _ (fun kv => by rw [h])
  have e : ∀ n : String,
      (findJob n (PyVal.int 0) Jobs : Except PErr (PJobLayout β × List (String × PJob))) =
      match Jobs.find? (fun kv => lowerStr kv.1 == lowerStr n) with
      | some kv => Except.ok (⟨kv.2, none, none⟩, Jobs)
      | none => Except.error (PErr.runtimeError ("Job name " ++ n ++ " not found")) := by
    intro n
    unfold findJob
    simp [h90, h180, h270, htr]
  rw [e n1] at hfind
  rw [e n2, ← hcongr]
  cases hf : Jobs.find? (fun kv => lowerStr kv.1 == lowerStr n1) with
  | none =>
    rw [hf] at hfind
    exact absurd hfind (by simp)
  | some kv =>
    rw [hf] at hfind
    cases Except.ok.inj hfind
    exact ⟨rfl, kv.1, List.mem_of_find?_eq_some hf⟩

/-- Witness for C10: looking up "alpha" and "ALPHA" in a catalog storing
"Alpha" yields the same stored job. -/
theorem findJob_case_insensitive_witness :
    lowerStr "alpha" = lowerStr "ALPHA" ∧
    findJob "alpha" (PyVal.int 0) [("Alpha", ⟨"Alpha"⟩)] =
      Except.ok ((⟨⟨"Alpha"⟩, none, none⟩ : PJobLayout ℤ), [("Alpha", ⟨"Alpha"⟩)]) ∧
    (findJob "ALPHA" (PyVal.int 0) [("Alpha", ⟨"Alpha"⟩)] =
      Except.ok ((⟨⟨"Alpha"⟩, none, none⟩ : PJobLayout ℤ), [("Alpha", ⟨"Alpha"⟩)]) ∧
     ∃ k, (k, (⟨"Alpha"⟩ : PJob)) ∈ [("Alpha", (⟨"Alpha"⟩ : PJob))]) :=
  ⟨by decide, by decide,
    findJob_case_insensitive [("Alpha", ⟨"Alpha"⟩)] "alpha" "ALPHA" (by decide)
      (⟨⟨"Alpha"⟩, none, none⟩ : PJobLayout ℤ) [("Alpha", ⟨"Alpha"⟩)] (by decide)⟩

/-! ### parselayout.py Row/Col layout trees

`jobs.py` is not in `src/`, so a leaf `JobLayout` is modelled from the
spec as a rectangle of fixed width and height; `Row`, `Col` and the
`Panel` loops follow parselayout.py directly.  Positions (Python `None`
before `setPosition`) are `Option` pairs. -/

mutual
/-- A node of the hierarchical layout tree: a leaf job (a `JobLayout`,
modelled from the spec with fixed dimensions), or a `Row`/`Col` panel
holding its child list `self.jobs`. -/
inductive PNode (α : Type) where
  | job (w h : α) (pos : Option (α × α))
  | row (pos : Option (α × α)) (cs : PList α)
  | col (pos : Option (α × α)) (cs : PList α)
/-- A list of layout tree nodes. -/
inductive PList (α : Type) where
  | nil
  | cons (c : PNode α) (cs : PList α)
end

/-- Number of children in a node list. -/
def PList.length : PList α → ℕ
  | PList.nil => 0
  | PList.cons _ cs => cs.length + 1

/-- The child at index `i` (a degenerate empty job past the end). -/
def PList.get : PList α → ℕ → PNode α
  | PList.nil, _ => PNode.job 0 0 none
  | PList.cons c _, 0 => c
  | PList.cons _ cs, n + 1 => PList.get cs n

mutual
/-- `width_in()`: a job's width; for a `Row` the `Panel.addwidths` loop
(parselayout.py lines 43-49, 108-109) - each child width plus the
x spacing accumulated, one trailing spacing subtracted; for a `Col` the
`Panel.maxwidths` fold from 0.0 (lines 51-56, 126-127). -/
def width_in (sp : SpacingCfg α) : PNode α → α
  | PNode.job w _ _ => w
  | PNode.row _ cs => addwidthsAcc sp cs 0 - sp.xspacing
  | PNode.col _ cs => maxwidthsAcc sp cs 0
/-- The accumulating loop of `Panel.addwidths`. -/
def addwidthsAcc (sp : SpacingCfg α) : PList α → α → α
  | PList.nil, acc => acc
  | PList.cons c cs, acc => addwidthsAcc sp cs (acc + (width_in sp c + sp.xspacing))
/-- The accumulating loop of `Panel.maxwidths`. -/
def maxwidthsAcc (sp : SpacingCfg α) : PList α → α → α
  | PList.nil, acc => acc
  | PList.cons c cs, acc => maxwidthsAcc sp cs (max acc (width_in sp c))
end

mutual
/-- `height_in()`: a job's height; for a `Row` the `Panel.maxheights`
fold from 0.0 (parselayout.py lines 66-71, 111-112); for a `Col` the
`Panel.addheights` loop (lines 58-64, 129-130). -/
def height_in (sp : SpacingCfg α) : PNode α → α
  | PNode.job _ h _ => h
  | PNode.row _ cs => maxheightsAcc sp cs 0
  | PNode.col _ cs => addheightsAcc sp cs 0 - sp.yspacing
/-- The accumulating loop of `Panel.addheights`. -/
def addheightsAcc (sp : SpacingCfg α) : PList α → α → α
  | PList.nil, acc => acc
  | PList.cons c cs, acc => addheightsAcc sp cs (acc + (height_in sp c + sp.yspacing))
/-- The accumulating loop of `Panel.maxheights`. -/
def maxheightsAcc (sp : SpacingCfg α) : PList α → α → α
  | PList.nil, acc => acc
  | PList.cons c cs, acc => maxheightsAcc sp cs (max acc (height_in sp c))
end

mutual
/-- `setPosition` (parselayout.py lines 114-119 and 132-137): record the
node's position; a `Row` places each child at the running x cursor and
advances it by the positioned child's `width_in()` plus the x spacing, a
`Col` advances the y cursor by `height_in()` plus the y spacing. -/
def setPosition (sp : SpacingCfg α) : PNode α → α → α → PNode α
  | PNode.job w h _, x, y => PNode.job w h (some (x, y))
  | PNode.row _ cs, x, y => PNode.row (some (x, y)) (placeRow sp cs x y)
  | PNode.col _ cs, x, y => PNode.col (some (x, y)) (placeCol sp cs x y)
/-- The child loop of `Row.setPosition`. -/
def placeRow (sp : SpacingCfg α) : PList α → α → α → PList α
  | PList.nil, _, _ => PList.nil
  | PList.cons c cs, x, y =>
    let c2 := setPosition sp c x y
    PList.cons c2 (placeRow sp cs (x + (width_in sp c2 + sp.xspacing)) y)
/-- The child loop of `Col.setPosition`. -/
def placeCol (sp : SpacingCfg α) : PList α → α → α → PList α
  | PList.nil, _, _ => PList.nil
  | PList.cons c cs, x, y =>
    let c2 := setPosition sp c x y
    PList.cons c2 (placeCol sp cs x (y + (height_in sp c2 + sp.yspacing)))
end

/-- The widths of the children of a node list. -/
def widthsOf (sp : SpacingCfg α) : PList α → List α
  | PList.nil => []
  | PList.cons c cs => width_in sp c :: widthsOf sp cs

/-- The heights of the children of a node list. -/
def heightsOf (sp : SpacingCfg α) : PList α → List α
  | PList.nil => []
  | PList.cons c cs => height_in sp c :: heightsOf sp cs

/-- Single-motive structural induction on child lists (the mutual
recursor has one motive per type, which the `induction` tactic does not
accept). -/
@[induction_eliminator]
theorem PList.inductionOn {γ : Type} {motive : PList γ → Prop} (nil : motive PList.nil)
    (cons : ∀ c cs, motive cs → motive (PList.cons c cs)) : ∀ cs, motive cs
  | PList.nil => nil
  | PList.cons c cs => cons c cs (PList.inductionOn nil cons cs)

/-- There are as many widths as children. -/
theorem widthsOf_length (sp : SpacingCfg α) (cs : PList α) :
    (widthsOf sp cs).length = cs.length := by
  induction cs with
  | nil => rfl
  | cons c cs ih => simp [widthsOf, PList.length, ih]

/-- There are as many heights as children. -/
theorem heightsOf_length (sp : SpacingCfg α) (cs : PList α) :
    (heightsOf sp cs).length = cs.length := by
  induction cs with
  | nil => rfl
  | cons c cs ih => simp [heightsOf, PList.length, ih]

/-- The `addwidths` accumulator computes the sum of the spaced widths. -/
theorem addwidthsAcc_eq (sp : SpacingCfg α) (cs : PList α) (acc : α) :
    addwidthsAcc sp cs acc = acc + ((widthsOf sp cs).map (fun w => w + sp.xspacing)).sum := by
  induction cs generalizing acc with
  | nil => simp [addwidthsAcc, widthsOf]
  | cons c cs ih => simp [addwidthsAcc, widthsOf, ih]; ring

/-- The `addheights` accumulator computes the sum of the spaced heights. -/
theorem addheightsAcc_eq (sp : SpacingCfg α) (cs : PList α) (acc : α) :
    addheightsAcc sp cs acc = acc + ((heightsOf sp cs).map (fun q => q + sp.yspacing)).sum := by
  induction cs generalizing acc with
  | nil => simp [addheightsAcc, heightsOf]
  | cons c cs ih => simp [addheightsAcc, heightsOf, ih]; ring

/-- The `maxwidths` accumulator is a fold of `max` over the widths. -/
theorem maxwidthsAcc_eq (sp : SpacingCfg α) (cs : PList α) (acc : α) :
    maxwidthsAcc sp cs acc = (widthsOf sp cs).foldl max acc := by
  induction cs generalizing acc with
  | nil => rfl
  | cons c cs ih => simp [maxwidthsAcc, widthsOf, ih]

/-- The `maxheights` accumulator is a fold of `max` over the heights. -/
theorem maxheightsAcc_eq (sp : SpacingCfg α) (cs : PList α) (acc : α) :
    maxheightsAcc sp cs acc = (heightsOf sp cs).foldl max acc := by
  induction cs generalizing acc with
  | nil => rfl
  | cons c cs ih => simp [maxheightsAcc, heightsOf, ih]

/-- Summing a constant shift over a list. -/
theorem sum_map_add_const (l : List α) (c : α) :
    (l.map (fun w => w + c)).sum = l.sum + (l.length : α) * c := by
  induction l with
  | nil => simp
  | cons a as ih => simp [ih]; ring

/-- A fold of `max` dominates its start and every element, and is one of
them. -/
theorem foldl_max_spec (l : List α) (acc : α) :
    acc ≤ l.foldl max acc ∧ (∀ a ∈ l, a ≤ l.foldl max acc) ∧
    (l.foldl max acc = acc ∨ l.foldl max acc ∈ l) := by
  induction l generalizing acc with
  | nil => simp
  | cons c cs ih =>
    obtain ⟨h1, h2, h3⟩ := ih (max acc c)
    simp only [List.foldl_cons]
    refine ⟨le_trans (le_max_left acc c) h1, ?_, ?_⟩
    · intro a ha
      rcases List.mem_cons.mp ha with rfl | ha
      · exact le_trans (le_max_right acc a) h1
      · exact h2 a ha
    · rcases h3 with h3 | h3
      · rcases max_choice acc c with hm | hm
        · exact Or.inl (by rw [h3, hm])
        · exact Or.inr (by rw [h3, hm]; exact List.mem_cons_self c cs)
      · exact Or.inr (List.mem_cons_of_mem c h3)

/-- A fold of `max` from 0 over a non-empty list of nonnegatives attains
the maximum of the list. -/
theorem foldl_max_attained (l : List α) (hne : l ≠ []) (hnn : ∀ a ∈ l, 0 ≤ a) :
    ∃ q ∈ l, l.foldl max 0 = q ∧ ∀ r ∈ l, r ≤ l.foldl max 0 := by
  obtain ⟨_, h2, h3⟩ := foldl_max_spec l 0
  rcases h3 with h3 | h3
  · rcases l with _ | ⟨a, as⟩
    · exact absurd rfl hne
    · refine ⟨a, List.mem_cons_self a as, ?_, h2⟩
      have ha0 : 0 ≤ a := hnn a (List.mem_cons_self a as)
      have hafold : a ≤ (a :: as).foldl max 0 := h2 a (List.mem_cons_self a as)
      rw [h3] at hafold ⊢
      exact (le_antisymm hafold ha0).symm
  · exact ⟨l.foldl max 0, h3, rfl, h2⟩

mutual
/-- Positioning a node does not change its width. -/
theorem setPosition_width (sp : SpacingCfg α) :
    (n : PNode α) → (x y : α) → width_in sp (setPosition sp n x y) = width_in sp n
  | PNode.job w h pos, x, y => rfl
  | PNode.row pos cs, x, y => by
    simp only [setPosition, width_in]
    rw [placeRow_addwidthsAcc sp cs x y 0]
  | PNode.col pos cs, x, y => by
    simp only [setPosition, width_in]
    rw [placeCol_maxwidthsAcc sp cs x y 0]
/-- Positioning a node does not change its height. -/
theorem setPosition_height (sp : SpacingCfg α) :
    (n : PNode α) → (x y : α) → height_in sp (setPosition sp n x y) = height_in sp n
  | PNode.job w h pos, x, y => rfl
  | PNode.row pos cs, x, y => by
    simp only [setPosition, height_in]
    rw [placeRow_maxheightsAcc sp cs x y 0]
  | PNode.col pos cs, x, y => by
    simp only [setPosition, height_in]
    rw [placeCol_addheightsAcc sp cs x y 0]
/-- Positioning a row's children preserves their `addwidths` loop. -/
theorem placeRow_addwidthsAcc (sp : SpacingCfg α) :
    (cs : PList α) → (x y acc : α) →
      addwidthsAcc sp (placeRow sp cs x y) acc = addwidthsAcc sp cs acc
  | PList.nil, x, y, acc => rfl
  | PList.cons c cs, x, y, acc => by
    simp only [placeRow, addwidthsAcc]
    rw [setPosition_width sp c x y]
    rw [placeRow_addwidthsAcc sp cs (x + (width_in sp c + sp.xspacing)) y
      (acc + (width_in sp c + sp.xspacing))]
/-- Positioning a row's children preserves their `maxheights` loop. -/
theorem placeRow_maxheightsAcc (sp : SpacingCfg α) :
    (cs : PList α) → (x y acc : α) →
      maxheightsAcc sp (placeRow sp cs x y) acc = maxheightsAcc sp cs acc
  | PList.nil, x, y, acc => rfl
  | PList.cons c cs, x, y, acc => by
    simp only [placeRow, maxheightsAcc]
    rw [setPosition_height sp c x y,
      placeRow_maxheightsAcc sp cs (x + (width_in sp (setPosition sp c x y) + sp.xspacing)) y
        (max acc (height_in sp c))]
/-- Positioning a column's children preserves their `maxwidths` loop. -/
theorem placeCol_maxwidthsAcc (sp : SpacingCfg α) :
    (cs : PList α) → (x y acc : α) →
      maxwidthsAcc sp (placeCol sp cs x y) acc = maxwidthsAcc sp cs acc
  | PList.nil, x, y, acc => rfl
  | PList.cons c cs, x, y, acc => by
    simp only [placeCol, maxwidthsAcc]
    rw [setPosition_width sp c x y,
      placeCol_maxwidthsAcc sp cs x (y + (height_in sp (setPosition sp c x y) + sp.yspacing))
        (max acc (width_in sp c))]
/-- Positioning a column's children preserves their `addheights` loop. -/
theorem placeCol_addheightsAcc (sp : SpacingCfg α) :
    (cs : PList α) → (x y acc : α) →
      addheightsAcc sp (placeCol sp cs x y) acc = addheightsAcc sp cs acc
  | PList.nil, x, y, acc => rfl
  | PList.cons c cs, x, y, acc => by
    simp only [placeCol, addheightsAcc]
    rw [setPosition_height sp c x y]
    rw [placeCol_addheightsAcc sp cs x (y + (height_in sp c + sp.yspacing))
      (acc + (height_in sp c + sp.yspacing))]
end

/-- The i-th child positioned by `Row.setPosition` sits at the x cursor
advanced by the spaced widths of its predecessors. -/
theorem placeRow_get (sp : SpacingCfg α) (cs : PList α) (x y : α) (i : ℕ)
    (hi : i < cs.length) :
    (placeRow sp cs x y).get i =
      setPosition sp (cs.get i)
        (x + (((widthsOf sp cs).take i).map (fun w => w + sp.xspacing)).sum) y := by
  induction cs generalizing x i with
  | nil => exact absurd hi (by simp [PList.length])
  | cons c cs ih =>
    cases i with
    | zero => simp [placeRow, PList.get, widthsOf]
    | succ i =>
      have hi2 : i < cs.length := by
        simp only [PList.length] at hi
        omega
      simp only [placeRow, PList.get, widthsOf, List.take_succ_cons, List.map_cons,
        List.sum_cons]
      rw [ih _ i hi2]
      congr 1
      rw [setPosition_width]
      ring

/-- The i-th child positioned by `Col.setPosition` sits at the y cursor
advanced by the spaced heights of its predecessors. -/
theorem placeCol_get (sp : SpacingCfg α) (cs : PList α) (x y : α) (i : ℕ)
    (hi : i < cs.length) :
    (placeCol sp cs x y).get i =
      setPosition sp (cs.get i) x
        (y + (((heightsOf sp cs).take i).map (fun q => q + sp.yspacing)).sum) := by
  induction cs generalizing y i with
  | nil => exact absurd hi (by simp [PList.length])
  | cons c cs ih =>
    cases i with
    | zero => simp [placeCol, PList.get, heightsOf]
    | succ i =>
      have hi2 : i < cs.length := by
        simp only [PList.length] at hi
        omega
      simp only [placeCol, PList.get, heightsOf, List.take_succ_cons, List.map_cons,
        List.sum_cons]
      rw [ih _ i hi2]
      congr 1
      rw [setPosition_height]
      ring

/-- C9: for a `Row` or `Col` with an empty child list the summed
dimension (`Row.width_in` via `addwidths`, `Col.height_in` via
`addheights`) is the negation of the configured spacing - a negative
length when the spacing is positive, not zero. -/
theorem empty_panel_negative_dimension (sp : SpacingCfg α) (pos : Option (α × α)) :
    width_in sp (PNode.row pos PList.nil) = -sp.xspacing ∧
    height_in sp (PNode.col pos PList.nil) = -sp.yspacing ∧
    (0 < sp.xspacing → width_in sp (PNode.row pos PList.nil) < 0) ∧
    (0 < sp.yspacing → height_in sp (PNode.col pos PList.nil) < 0) := by
  have hw : width_in sp (PNode.row pos PList.nil) = -sp.xspacing := by
    simp [width_in, addwidthsAcc]
  have hh : height_in sp (PNode.col pos PList.nil) = -sp.yspacing := by
    simp [height_in, addheightsAcc]
  refine ⟨hw, hh, fun hx => ?_, fun hy => ?_⟩
  · rw [hw]; exact neg_neg_of_pos hx
  · rw [hh]; exact neg_neg_of_pos hy

/-- Witness for C9 at integer spacing 1. -/
theorem empty_panel_negative_dimension_witness :
    (0 : ℤ) < (⟨1, 1⟩ : SpacingCfg ℤ).xspacing ∧
    width_in (⟨1, 1⟩ : SpacingCfg ℤ) (PNode.row none PList.nil) < 0 :=
  ⟨by decide,
    (empty_panel_negative_dimension (⟨1, 1⟩ : SpacingCfg ℤ) none).2.2.1 (by decide)⟩

/-- C6 counterexample: for a `Row` with no children the claimed width -
the children's width sum plus one x spacing per adjacent pair, which is 0
for an empty list - differs from the code's `addwidths`, which yields the
negated x spacing. -/
theorem row_width_empty_differs_from_claim :
    width_in (⟨1, 1⟩ : SpacingCfg ℤ) (PNode.row none PList.nil) = -1 ∧
    (widthsOf (⟨1, 1⟩ : SpacingCfg ℤ) PList.nil).sum +
      (((PList.nil : PList ℤ).length - 1 : ℕ) : ℤ) * (1 : ℤ) = 0 ∧
    width_in (⟨1, 1⟩ : SpacingCfg ℤ) (PNode.row none PList.nil) ≠
      (widthsOf (⟨1, 1⟩ : SpacingCfg ℤ) PList.nil).sum +
        (((PList.nil : PList ℤ).length - 1 : ℕ) : ℤ) * (1 : ℤ) :=
  ⟨by decide, by decide, by decide⟩

/-- C6 amended (restricted to panels with at least one child - an empty
child list instead yields the negated spacing, see the counterexample and
C9 - and to children of nonnegative dimensions for the max clauses):
`Row.setPosition` places child `i` at the x cursor advanced by the spaced
widths of its predecessors while `Row.width_in` is the children's width
sum plus one x spacing per adjacent pair and `Row.height_in` attains the
maximum of the children's heights; symmetrically for `Col` with the y
cursor, spaced height sum, and width maximum. -/
theorem row_col_cursor_and_dimensions (sp : SpacingCfg α) (cs : PList α)
    (pos : Option (α × α)) (x y : α) (h0 : 0 < cs.length)
    (hw : ∀ q ∈ widthsOf sp cs, 0 ≤ q) (hh : ∀ q ∈ heightsOf sp cs, 0 ≤ q) :
    (setPosition sp (PNode.row pos cs) x y =
        PNode.row (some (x, y)) (placeRow sp cs x y) ∧
      ∀ i, i < cs.length → (placeRow sp cs x y).get i =
        setPosition sp (cs.get i)
          (x + (((widthsOf sp cs).take i).map (fun w => w + sp.xspacing)).sum) y) ∧
    width_in sp (PNode.row pos cs) =
      (widthsOf sp cs).sum + ((cs.length - 1 : ℕ) : α) * sp.xspacing ∧
    (∃ q ∈ heightsOf sp cs, height_in sp (PNode.row pos cs) = q ∧
      ∀ r ∈ heightsOf sp cs, r ≤ height_in sp (PNode.row pos cs)) ∧
    (setPosition sp (PNode.col pos cs) x y =
        PNode.col (some (x, y)) (placeCol sp cs x y) ∧
      ∀ i, i < cs.length → (placeCol sp cs x y).get i =
        setPosition sp (cs.get i) x
          (y + (((heightsOf sp cs).take i).map (fun q => q + sp.yspacing)).sum)) ∧
    height_in sp (PNode.col pos cs) =
      (heightsOf sp cs).sum + ((cs.length - 1 : ℕ) : α) * sp.yspacing ∧
    (∃ q ∈ widthsOf sp cs, width_in sp (PNode.col pos cs) = q ∧
      ∀ r ∈ widthsOf sp cs, r ≤ width_in sp (PNode.col pos cs)) := by
  have hlen1 : (1 : ℕ) ≤ cs.length := h0
  have hwidth : width_in sp (PNode.row pos cs) =
      (widthsOf sp cs).sum + ((cs.length - 1 : ℕ) : α) * sp.xspacing := by
    show addwidthsAcc sp cs 0 - sp.xspacing = _
    rw [addwidthsAcc_eq, sum_map_add_const, widthsOf_length, Nat.cast_sub hlen1]
    push_cast
    ring
  have hheight : height_in sp (PNode.col pos cs) =
      (heightsOf sp cs).sum + ((cs.length - 1 : ℕ) : α) * sp.yspacing := by
    show addheightsAcc sp cs 0 - sp.yspacing = _
    rw [addheightsAcc_eq, sum_map_add_const, heightsOf_length, Nat.cast_sub hlen1]
    push_cast
    ring
  have hhne : heightsOf sp cs ≠ [] := by
    intro hc
    have := heightsOf_length sp cs
    rw [hc] at this
    simp at this
    omega
  have hwne : widthsOf sp cs ≠ [] := by
    intro hc
    have := widthsOf_length sp cs
    rw [hc] at this
    simp at this
    omega
  have hrowh : ∃ q ∈ heightsOf sp cs, height_in sp (PNode.row pos cs) = q ∧
      ∀ r ∈ heightsOf sp cs, r ≤ height_in sp (PNode.row pos cs) := by
    have := foldl_max_attained (heightsOf sp cs) hhne hh
    show ∃ q ∈ heightsOf sp cs, maxheightsAcc sp cs 0 = q ∧
      ∀ r ∈ heightsOf sp cs, r ≤ maxheightsAcc sp cs 0
    rw [maxheightsAcc_eq]
    exact this
  have hcolw : ∃ q ∈ widthsOf sp cs, width_in sp (PNode.col pos cs) = q ∧
      ∀ r ∈ widthsOf sp cs, r ≤ width_in sp (PNode.col pos cs) := by
    have := foldl_max_attained (widthsOf sp cs) hwne hw
    show ∃ q ∈ widthsOf sp cs, maxwidthsAcc sp cs 0 = q ∧
      ∀ r ∈ widthsOf sp cs, r ≤ maxwidthsAcc sp cs 0
    rw [maxwidthsAcc_eq]
    exact this
  exact ⟨⟨rfl, fun i hi => placeRow_get sp cs x y i hi⟩, hwidth, hrowh,
    ⟨rfl, fun i hi => placeCol_get sp cs x y i hi⟩, hheight, hcolw⟩

/-- Witness child list for the amended C6 theorem: two jobs, 2 x 3 and
4 x 5. -/
def w6Cs : PList ℤ :=
  PList.cons (PNode.job 2 3 none) (PList.cons (PNode.job 4 5 none) PList.nil)

/-- Witness for the amended C6 theorem at integer spacing 1. -/
theorem row_col_cursor_and_dimensions_witness :
    ((0 : ℕ) < w6Cs.length ∧
     (∀ q ∈ widthsOf (⟨1, 1⟩ : SpacingCfg ℤ) w6Cs, 0 ≤ q) ∧
     (∀ q ∈ heightsOf (⟨1, 1⟩ : SpacingCfg ℤ) w6Cs, 0 ≤ q)) ∧
    width_in (⟨1, 1⟩ : SpacingCfg ℤ) (PNode.row none w6Cs) =
      (widthsOf (⟨1, 1⟩ : SpacingCfg ℤ) w6Cs).sum + ((w6Cs.length - 1 : ℕ) : ℤ) * 1 :=
  ⟨⟨by decide, by decide, by decide⟩,
    (row_col_cursor_and_dimensions (⟨1, 1⟩ : SpacingCfg ℤ) w6Cs none 0 0 (by decide)
      (by decide) (by decide)).2.1⟩

end GerbMerge
